import Mathlib

/-!
# Sightline — verification of the realtime media core

Shallow embedding of the realtime core of the Sightline repository:
the client audio playback scheduler (`use-agent-audio-playback.ts`),
the scene-change gate (`use-camera-stream.ts`), the transcript
aggregator and auto-observe heuristic (the main `App` component), and
the server-side `LiveSessionBridge`.

Time values and clock readings are modelled as exact numbers (`ℚ` for
`AudioContext` time in seconds, `ℤ` for `Date.now()` milliseconds):
the JavaScript values involved are either exact integers or sums of
small decimal literals, so no floating-point rounding is relevant to
the properties proved here.
-/

namespace Sightline

/-! ## Audio Playback Scheduler (`src/client/hooks/use-agent-audio-playback.ts`)

State of one `useAgentAudioPlayback` instance: the FIFO `queueRef`,
the playback cursor `nextPlayTimeRef`, whether an `AudioContext` is
currently alive (`contextRef !== null`), and the single-flight
`processingRef` flag.  Chunk payloads and mime types are opaque
strings.  Decoding (`createBufferFromChunk`) and the audio clock
(`context.currentTime`) are external platform operations; a drain pass
is parameterised by a decode oracle giving each chunk's decoded
duration in seconds (`none` = the decode throws) and by a clock giving
`currentTime` at each loop iteration. -/

namespace AudioPlayback

structure QueuedAudioChunk where
  data : String
  mimeType : String
deriving DecidableEq, Repr

structure PlayerState where
  queue : List QueuedAudioChunk
  nextPlayTime : ℚ
  hasContext : Bool
  processing : Bool
deriving DecidableEq, Repr

/-- Source function `stop()`: clears the queue, resets the cursor to 0 and closes the
audio context (lines 69–78 of the source).  The `processingRef` flag is
not touched by `stop` itself. -/
def stop (s : PlayerState) : PlayerState :=
  { queue := [], nextPlayTime := 0, hasContext := false, processing := s.processing }

/-- The fixed scheduling lookahead `0.01` seconds (line 98). -/
def lookahead : ℚ := 1 / 100

/-- Source function `scheduleBuffer`: computes `startAt = max(currentTime + 0.01, nextPlayTime)`,
starts the source at `startAt` and advances the cursor to
`startAt + duration` (lines 93–101).  Returns the chosen start time and
the new cursor value. -/
def scheduleBuffer (now duration nextPlayTime : ℚ) : ℚ × ℚ :=
  let startAt := max (now + lookahead) nextPlayTime
  (startAt, startAt + duration)

/-- The body of the `while` loop of `processQueue` (lines 129–138),
recursing over the queue.  `decode c = none` models
`createBufferFromChunk` throwing on chunk `c`; in that case control
transfers to the `catch` block, which calls `stop()` (lines 139–141).
`clock k` is `context.currentTime` observed at the `k`-th iteration.
`ensureContext` makes the context alive before the first decode. -/
def drainLoop (decode : QueuedAudioChunk → Option ℚ) (clock : ℕ → ℚ) :
    List QueuedAudioChunk → ℕ → ℚ → Bool → PlayerState
  | [], _, npt, ctx =>
      { queue := [], nextPlayTime := npt, hasContext := ctx, processing := true }
  | c :: rest, k, npt, _ =>
      match decode c with
      | none => stop { queue := rest, nextPlayTime := npt, hasContext := true, processing := true }
      | some duration =>
          drainLoop decode clock rest (k + 1) (scheduleBuffer (clock k) duration npt).2 true

/-- Source function `processQueue` (lines 121–144): returns immediately when a drain is
already running, otherwise sets the single-flight flag, drains the
queue, and clears the flag in `finally`. -/
def processQueue (decode : QueuedAudioChunk → Option ℚ) (clock : ℕ → ℚ)
    (s : PlayerState) : PlayerState :=
  if s.processing then s
  else
    let s' := drainLoop decode clock s.queue 0 s.nextPlayTime s.hasContext
    { s' with processing := false }

/-- Source function `enqueueChunk` (lines 146–160): ignores the call when `data` or
`mimeType` is falsy (the empty string), otherwise appends to the queue
and triggers `processQueue`.  The boolean reports whether a drain pass
was triggered (`void processQueue()` reached). -/
def enqueueChunk (data mimeType : String) (s : PlayerState) : PlayerState × Bool :=
  if data = "" ∨ mimeType = "" then (s, false)
  else ({ s with queue := s.queue ++ [⟨data, mimeType⟩] }, true)

/-- A drain pass over a list of (currentTime, duration) pairs: returns
the `(start, end)` interval of every chunk scheduled, in order, plus
the final cursor value.  This is `drainLoop` restricted to the success
path, exposing the schedule itself. -/
def scheduleChunks (npt : ℚ) : List (ℚ × ℚ) → List (ℚ × ℚ) × ℚ
  | [] => ([], npt)
  | (now, duration) :: rest =>
      let sb := scheduleBuffer now duration npt
      let tail := scheduleChunks sb.2 rest
      ((sb.1, sb.1 + duration) :: tail.1, tail.2)

end AudioPlayback

/-! ## Scene-Change Gate (`src/client/hooks/use-camera-stream.ts`)

One timer tick of `useCameraStream` (lines 119–148), for a tick on
which the video element has a valid frame (`videoWidth/videoHeight > 0`)
and the scene canvas context exists (otherwise the tick is a no-op that
touches nothing).  The 32×18 downsampled RGBA read of the current frame
is the list `pixels` (the source guarantees both the new read and the
retained signature come from the same fixed-size canvas, so signatures
compared by the gate always have equal length); byte values are
naturals in 0..255.  `frameCanvas.toDataURL('image/jpeg', 0.72)` is an
external platform encoder; its output string is the input `dataUrl`
(per the HTML specification it is always a `data:` URL containing a
comma, e.g. `data:image/jpeg;base64,...`).  Strings are lists of
characters. -/

namespace CameraStream

structure RGBA where
  r : ℕ
  g : ℕ
  b : ℕ
  a : ℕ
deriving DecidableEq, Repr

/-- The per-cell luma transform of `getSceneSignature` (line 68):
`red * 0.299 + green * 0.587 + blue * 0.114` (alpha unused). -/
def luma (p : RGBA) : ℚ :=
  p.r * (299 / 1000) + p.g * (587 / 1000) + p.b * (114 / 1000)

/-- Source function `getSceneSignature` (lines 44–72): the luma value of each cell of
the downsampled frame, in pixel order. -/
def getSceneSignature (pixels : List RGBA) : List ℚ :=
  pixels.map luma

/-- The mean absolute per-cell difference computed by
`hasMeaningfulSceneChange` (lines 79–85): `totalDiff / length`. -/
def meanAbsDiff (next last : List ℚ) : ℚ :=
  (((next.zip last).map fun p => |p.1 - p.2|).sum) / next.length

/-- Source function `hasMeaningfulSceneChange` (lines 74–87): `true` when there is no
retained signature yet, otherwise `averageDiff >= sceneChangeThreshold`. -/
def hasMeaningfulSceneChange (lastSceneSample : Option (List ℚ))
    (nextSample : List ℚ) (sceneChangeThreshold : ℚ) : Bool :=
  match lastSceneSample with
  | none => true
  | some last => decide (sceneChangeThreshold ≤ meanAbsDiff nextSample last)

/-- The slice `dataUrl.indexOf(',')` followed by `dataUrl.slice(commaIndex + 1)`
(lines 141–147): the characters after the first comma, or `none` when
the string holds no comma (`commaIndex === -1`). -/
def sliceAfterComma : List Char → Option (List Char)
  | [] => none
  | c :: rest => if c = ',' then some rest else sliceAfterComma rest

/-- One timer tick with a valid frame (lines 124–147).  Input: the
retained `lastSceneSample`, the downsampled pixel read of the current
frame, the data URL produced by the platform JPEG encoder for the
full-resolution frame.  Output: the new retained signature and the
payload passed to `onFrame` (`none` = no frame emitted this tick).
Note the source assigns `lastSceneSample = sceneSample` (line 134)
before the comma check (line 143), so on a comma-less data URL the
signature is replaced even though no frame is emitted. -/
def captureTick (sceneChangeThreshold : ℚ) (lastSceneSample : Option (List ℚ))
    (pixels : List RGBA) (dataUrl : List Char) :
    Option (List ℚ) × Option (List Char) :=
  let sceneSample := getSceneSignature pixels
  if hasMeaningfulSceneChange lastSceneSample sceneSample sceneChangeThreshold then
    match sliceAfterComma dataUrl with
    | none => (some sceneSample, none)
    | some payload => (some sceneSample, some payload)
  else (lastSceneSample, none)

/-- A sequence of valid-frame ticks, threading the retained signature
and collecting the signature of every frame actually emitted (passed
to `onFrame`), in order. -/
def runTicks (sceneChangeThreshold : ℚ) (lastSceneSample : Option (List ℚ)) :
    List (List RGBA × List Char) → Option (List ℚ) × List (List ℚ)
  | [] => (lastSceneSample, [])
  | (pixels, dataUrl) :: rest =>
      let r := captureTick sceneChangeThreshold lastSceneSample pixels dataUrl
      let tail := runTicks sceneChangeThreshold r.1 rest
      match r.2 with
      | none => (tail.1, tail.2)
      | some _ => (tail.1, getSceneSignature pixels :: tail.2)

end CameraStream

/-! ## Transcript Aggregator (the `App` component)

`normalizeTranscriptText` and `appendEntry` from the main application
file.  Texts are lists of characters.  The JavaScript regex `\s`
matches a whitespace class; the characters below are the ones that can
occur in the texts this program handles (the extra Unicode space code
points JavaScript also classes as `\s` behave identically and are
omitted).  Entry ids (`createId`, a timestamp plus random suffix) take
no part in deduplication and are omitted from the model. -/

namespace Transcript

/-- Membership in the JavaScript `\s` character class (ASCII part). -/
def isJsWhitespace (c : Char) : Bool :=
  c = ' ' || c = '\t' || c = '\n' || c = '\r' || c = '\x0b' || c = '\x0c'

/-- The replacement `value.replace(/\s+/g, " ")`: every maximal run of whitespace
characters becomes a single space.  The flag records whether the
previous character was part of a whitespace run already replaced. -/
def collapseWhitespace : Bool → List Char → List Char
  | _, [] => []
  | prevWs, c :: rest =>
      if isJsWhitespace c then
        if prevWs then collapseWhitespace true rest
        else ' ' :: collapseWhitespace true rest
      else c :: collapseWhitespace false rest

/-- The trim `String.prototype.trim()`: strip leading and trailing whitespace. -/
def trimWs (l : List Char) : List Char :=
  ((l.dropWhile fun c => isJsWhitespace c).reverse.dropWhile fun c =>
    isJsWhitespace c).reverse

/-- Source function `normalizeTranscriptText` (lines 30–32 of the app file):
`value.replace(/\s+/g, " ").trim()`. -/
def normalizeTranscriptText (value : List Char) : List Char :=
  trimWs (collapseWhitespace false value)

inductive Role where
  | user
  | agent
  | event
deriving DecidableEq, Repr

structure TranscriptEntry where
  role : Role
  text : List Char
deriving DecidableEq, Repr

/-- The slice `previous.slice(-4)`: the last four elements (all of them when the
list is shorter). -/
def lastFour (l : List TranscriptEntry) : List TranscriptEntry :=
  l.drop (l.length - 4)

/-- Source function `appendEntry` (lines 65–105 of the app file): normalize the text;
drop the entry when the normalized text is blank, when it duplicates
the immediately preceding entry of the same role, or — for agent
entries — when it matches an agent entry among the last four log
entries; otherwise append it with the normalized text. -/
def appendEntry (previous : List TranscriptEntry) (role : Role)
    (text : List Char) : List TranscriptEntry :=
  let normalizedNextText := normalizeTranscriptText text
  if normalizedNextText = [] then previous
  else
    let isLastDuplicate : Bool :=
      match previous.getLast? with
      | some last =>
          last.role = role && normalizeTranscriptText last.text = normalizedNextText
      | none => false
    if isLastDuplicate then previous
    else
      let recentAgentEntries :=
        (lastFour previous).filter fun item => item.role = Role.agent
      let alreadySeenRecentAgentReply :=
        recentAgentEntries.any fun item =>
          normalizeTranscriptText item.text = normalizedNextText
      if role = Role.agent && alreadySeenRecentAgentReply then previous
      else previous ++ [⟨role, normalizedNextText⟩]

/-- Written from the spec's words, for comparison with `appendEntry`:
the normalized texts of "the last four agent entries in the log"
(the agent entries of the log, keeping the last four of them). -/
def specLastFourAgentTexts (log : List TranscriptEntry) : List (List Char) :=
  let agents := log.filter fun item => item.role = Role.agent
  (agents.drop (agents.length - 4)).map fun item => normalizeTranscriptText item.text

end Transcript

/-! ## Session Bridge (`LiveSessionBridge`, server side)

`handleClientMessage` dispatching an inbound wire message to the
external streaming session.  The external session's methods may throw
synchronously, and the awaited `ai.live.connect` call may reject; both
are modelled by a behaviour oracle mapping each external call to
`some errorMessage` (the call fails, carrying an `Error` whose
`message` is that string) or `none` (it succeeds).  The un-awaited
`sendClientContent` / `sendRealtimeInput` calls return `void` in the
SDK, so a synchronous throw is their only failure mode.  Inside the
`try` block an escaped exception is carried in the `thrown` field of
the run result; the `catch` of `handleClientMessage` (lines 163–168)
turns it into one `live.error`.  The run result also logs every call
performed on the external session. -/

namespace Bridge

/-- Inbound wire messages (`ClientSocketMessage`). -/
inductive ClientMsg where
  | sessionConnect (systemInstruction : Option String)
  | sessionDisconnect
  | ping
  | textTurn (text : String) (turnComplete : Option Bool)
  | audioChunk (data mimeType : String)
  | audioEnd
  | videoFrame (data mimeType : String)
  | activityStart
  | activityEnd
deriving DecidableEq, Repr

/-- Outbound wire messages emitted by `handleClientMessage` paths. -/
inductive ServerMsg where
  | liveError (message : String)
  | sessionClosed (reason : Option String)
  | pong
deriving DecidableEq, Repr

/-- The calls `handleClientMessage` can perform on the external
session (plus the `ai.live.connect` call that creates one). -/
inductive ExtCall where
  | close
  | liveConnect
  | sendClientContent (text : String) (turnComplete : Bool)
  | sendRealtimeAudio (data mimeType : String)
  | sendAudioStreamEnd
  | sendRealtimeVideo (data mimeType : String)
  | sendActivityStart
  | sendActivityEnd
deriving DecidableEq, Repr

/-- Failure behaviour of the external session: `some msg` means the
call throws (or the awaited connect rejects) with `Error(msg)`. -/
def Behavior := ExtCall → Option String

/-- Bridge state: the configured credential and whether
`this.session` is non-null. -/
structure BridgeState where
  apiKey : String
  hasSession : Bool
deriving DecidableEq, Repr

/-- Result of running a dispatch inside the `try` block: the bridge
state, the wire messages sent so far, the external calls performed so
far, and the exception escaping the block, if any. -/
structure RunResult where
  bridge : BridgeState
  sent : List ServerMsg
  calls : List ExtCall
  thrown : Option String
deriving DecidableEq, Repr

def noActiveSessionMsg : String := "No active Live session. Click connect first."

def missingKeyMsg : String := "GEMINI_API_KEY is missing in server environment."

/-- Source method `disconnect(reason?)` (lines 70–82): a no-op without a session;
otherwise `session.close()` (which may throw — in that case the handle
is not cleared and no message is sent), then clear the handle and emit
`session.closed` with the given reason. -/
def disconnect (b : Behavior) (st : BridgeState) (reason : Option String) : RunResult :=
  if st.hasSession = false then ⟨st, [], [], none⟩
  else
    match b ExtCall.close with
    | some e => ⟨st, [], [ExtCall.close], some e⟩
    | none => ⟨{ st with hasSession := false }, [ServerMsg.sessionClosed reason], [ExtCall.close], none⟩

/-- Source method `connect(systemInstruction?)` (lines 23–68): with no credential,
emit the configuration error and do nothing else; otherwise supersede
any open session via `disconnect`, then await `ai.live.connect` —
on success the new handle is stored, on rejection the exception
escapes to the caller's catch. -/
def connect (b : Behavior) (st : BridgeState) : RunResult :=
  if st.apiKey = "" then ⟨st, [ServerMsg.liveError missingKeyMsg], [], none⟩
  else
    let d := if st.hasSession then disconnect b st (some "Reconnecting session.")
             else ⟨st, [], [], none⟩
    match d.thrown with
    | some e => ⟨d.bridge, d.sent, d.calls, some e⟩
    | none =>
        match b ExtCall.liveConnect with
        | some e => ⟨d.bridge, d.sent, d.calls ++ [ExtCall.liveConnect], some e⟩
        | none => ⟨{ d.bridge with hasSession := true }, d.sent,
            d.calls ++ [ExtCall.liveConnect], none⟩

/-- One fire-and-forget call on the open session: performed, and its
synchronous throw (if any) escapes the dispatch. -/
def performCall (b : Behavior) (st : BridgeState) (c : ExtCall) : RunResult :=
  ⟨st, [], [c], b c⟩

/-- The body of the `try` block of `handleClientMessage`
(lines 85–162): dispatch on the message tag. -/
def dispatch (b : Behavior) (st : BridgeState) : ClientMsg → RunResult
  | ClientMsg.sessionConnect _ => connect b st
  | ClientMsg.sessionDisconnect => disconnect b st (some "Disconnected by client request.")
  | ClientMsg.ping => ⟨st, [ServerMsg.pong], [], none⟩
  | ClientMsg.textTurn text turnComplete =>
      if st.hasSession = false then ⟨st, [ServerMsg.liveError noActiveSessionMsg], [], none⟩
      else performCall b st (ExtCall.sendClientContent text (turnComplete.getD true))
  | ClientMsg.audioChunk data mimeType =>
      if st.hasSession = false then ⟨st, [ServerMsg.liveError noActiveSessionMsg], [], none⟩
      else performCall b st (ExtCall.sendRealtimeAudio data mimeType)
  | ClientMsg.audioEnd =>
      if st.hasSession = false then ⟨st, [ServerMsg.liveError noActiveSessionMsg], [], none⟩
      else performCall b st ExtCall.sendAudioStreamEnd
  | ClientMsg.videoFrame data mimeType =>
      if st.hasSession = false then ⟨st, [ServerMsg.liveError noActiveSessionMsg], [], none⟩
      else performCall b st (ExtCall.sendRealtimeVideo data mimeType)
  | ClientMsg.activityStart =>
      if st.hasSession = false then ⟨st, [ServerMsg.liveError noActiveSessionMsg], [], none⟩
      else performCall b st ExtCall.sendActivityStart
  | ClientMsg.activityEnd =>
      if st.hasSession = false then ⟨st, [ServerMsg.liveError noActiveSessionMsg], [], none⟩
      else performCall b st ExtCall.sendActivityEnd

/-- Source method `handleClientMessage` (lines 84–169): run the dispatch inside
`try`; the `catch` converts an escaped exception into exactly one
`live.error` carrying the error's message.  The result is the new
bridge state, all wire messages sent, and all external calls made. -/
def handleClientMessage (b : Behavior) (st : BridgeState) (msg : ClientMsg) :
    BridgeState × List ServerMsg × List ExtCall :=
  let r := dispatch b st msg
  match r.thrown with
  | none => (r.bridge, r.sent, r.calls)
  | some e => (r.bridge, r.sent ++ [ServerMsg.liveError e], r.calls)

/-- Whether a message tag is one of the three always-accepted ones
(`session.connect`, `session.disconnect`, `ping`). -/
def alwaysAccepted : ClientMsg → Bool
  | ClientMsg.sessionConnect _ => true
  | ClientMsg.sessionDisconnect => true
  | ClientMsg.ping => true
  | _ => false

/-- Count of `live.error` messages in an outbound list. -/
def countLiveErrors (l : List ServerMsg) : ℕ :=
  (l.filter fun m => m matches ServerMsg.liveError _).length

end Bridge

/-! ## Auto-Observe Heuristic (the `App` component)

The silence/cooldown-driven auto-observation logic: the
`requestVisionFeedback` callback (lines 366–404 of the app file) and
the interval effect that drives it in auto mode (lines 421–448),
together with the app events — during one connected session — that
update the three activity timestamps and the flags the heuristic reads.
`Date.now()` values are integers (milliseconds). -/

namespace AutoObserve

def userSilenceThresholdMs : ℤ := 8000

def autoFeedbackCooldownMs : ℤ := 18000

def autoFeedbackFrameFreshnessMs : ℤ := 8000

inductive Mode where
  | manual
  | auto
deriving DecidableEq, Repr

/-- The slice of app state the heuristic reads and writes:
`connectionState === 'connected'`, the camera toggle, the auto-observe
toggle, the latest `live.waiting-input` signal, and the three activity
timestamps (`lastUserActivityAtRef`, `lastFrameCaptureAtRef`,
`lastVisionFeedbackRequestAtRef`). -/
structure AppState where
  liveInputEnabled : Bool
  cameraEnabled : Bool
  visionAutoFeedbackEnabled : Bool
  waitingForInput : Bool
  lastUserActivityAt : ℤ
  lastFrameCaptureAt : ℤ
  lastVisionFeedbackRequestAt : ℤ
deriving DecidableEq, Repr

/-- Source callback `requestVisionFeedback(mode)` (lines 366–404) at clock reading
`now`.  Returns the new state and whether a feedback text turn was
sent (`sendTextTurn` reached). -/
def requestVisionFeedback (mode : Mode) (now : ℤ) (s : AppState) : AppState × Bool :=
  if s.liveInputEnabled = false ∨ s.cameraEnabled = false then (s, false)
  else if mode = Mode.auto ∧ now - s.lastVisionFeedbackRequestAt < autoFeedbackCooldownMs then
    (s, false)
  else if mode = Mode.auto ∧ now - s.lastFrameCaptureAt > autoFeedbackFrameFreshnessMs then
    (s, false)
  else
    let s' := { s with lastVisionFeedbackRequestAt := now }
    match mode with
    | Mode.manual => ({ s' with lastUserActivityAt := now }, true)
    | Mode.auto => (s', true)

/-- One tick of the auto-observe interval (lines 421–448) at clock
reading `now`.  The interval is registered only while the toggle, the
connection, the camera and the latest waiting-for-input signal are all
on (the effect's guard), so a tick fires — and can send — only under
that conjunction; the tick body then requires silence of at least the
threshold before invoking `requestVisionFeedback('auto')`.  Returns
the new state and whether an auto feedback message was sent. -/
def autoObserveTick (now : ℤ) (s : AppState) : AppState × Bool :=
  if ¬(s.visionAutoFeedbackEnabled = true ∧ s.liveInputEnabled = true ∧
      s.cameraEnabled = true ∧ s.waitingForInput = true) then (s, false)
  else if now - s.lastUserActivityAt < userSilenceThresholdMs then (s, false)
  else requestVisionFeedback Mode.auto now s

/-- App events, during one connected session, that touch the state the
heuristic reads: an auto-observe interval tick, a manual vision
request, a camera frame delivered by the gate (`onCameraFrame`,
line 296–302), a user action that stamps `lastUserActivityAtRef`
(mic toggle, manual text send, interrupt), the `live.waiting-input`
signal, and the camera / auto-observe toggles. -/
inductive Ev where
  | tick (now : ℤ)
  | manualVision (now : ℤ)
  | frameCaptured (now : ℤ)
  | userActivity (now : ℤ)
  | waitingSignal (w : Bool)
  | cameraToggle (flag : Bool)
  | autoToggle (flag : Bool)
deriving DecidableEq, Repr

/-- The clock reading carried by an event, when it has one. -/
def evTime : Ev → Option ℤ
  | Ev.tick now => some now
  | Ev.manualVision now => some now
  | Ev.frameCaptured now => some now
  | Ev.userActivity now => some now
  | _ => none

/-- The state transition of one event; the boolean reports whether an
auto-mode feedback message was sent by that event. -/
def step (s : AppState) : Ev → AppState × Bool
  | Ev.tick now => autoObserveTick now s
  | Ev.manualVision now => ((requestVisionFeedback Mode.manual now s).1, false)
  | Ev.frameCaptured now => ({ s with lastFrameCaptureAt := now }, false)
  | Ev.userActivity now => ({ s with lastUserActivityAt := now }, false)
  | Ev.waitingSignal w => ({ s with waitingForInput := w }, false)
  | Ev.cameraToggle flag => ({ s with cameraEnabled := flag }, false)
  | Ev.autoToggle flag => ({ s with visionAutoFeedbackEnabled := flag }, false)

/-- Run a list of events, returning the final state. -/
def runTrace (s : AppState) : List Ev → AppState
  | [] => s
  | e :: rest => runTrace (step s e).1 rest

end AutoObserve

end Sightline

namespace Sightline.AudioPlayback

lemma scheduleBuffer_start_ge (now duration npt : ℚ) :
    npt ≤ (scheduleBuffer now duration npt).1 :=
  le_max_right _ _

lemma scheduleChunks_head_ge (npt : ℚ) (cs : List (ℚ × ℚ)) :
    ∀ p ∈ (scheduleChunks npt cs).1.head?, npt ≤ p.1 := by
  cases cs with
  | nil => simp [scheduleChunks]
  | cons c rest =>
      intro p hp
      simp [scheduleChunks] at hp
      subst hp
      exact le_max_right _ _

lemma scheduleChunks_cursor_mono (npt : ℚ) (cs : List (ℚ × ℚ))
    (hdur : ∀ c ∈ cs, 0 ≤ c.2) : npt ≤ (scheduleChunks npt cs).2 := by
  induction cs generalizing npt with
  | nil => simp [scheduleChunks]
  | cons c rest ih =>
      obtain ⟨now, duration⟩ := c
      have h0 : (0 : ℚ) ≤ duration := hdur (now, duration) (List.mem_cons_self _ _)
      have h1 : npt ≤ (scheduleBuffer now duration npt).2 := by
        have hs : npt ≤ (now + lookahead) ⊔ npt := le_max_right _ _
        simp only [scheduleBuffer]
        linarith
      have h2 := ih (scheduleBuffer now duration npt).2
        (fun c hc => hdur c (List.mem_cons_of_mem _ hc))
      calc npt ≤ (scheduleBuffer now duration npt).2 := h1
        _ ≤ _ := h2

lemma scheduleChunks_chain (npt : ℚ) (cs : List (ℚ × ℚ))
    (hdur : ∀ c ∈ cs, 0 ≤ c.2) :
    List.Chain' (fun a b : ℚ × ℚ => a.1 ≤ b.1 ∧ a.2 ≤ b.1) (scheduleChunks npt cs).1 := by
  induction cs generalizing npt with
  | nil => simp [scheduleChunks]
  | cons c rest ih =>
      obtain ⟨now, duration⟩ := c
      have h0 : (0 : ℚ) ≤ duration := hdur (now, duration) (List.mem_cons_self _ _)
      have hrest : ∀ c ∈ rest, 0 ≤ c.2 := fun c hc => hdur c (List.mem_cons_of_mem _ hc)
      simp only [scheduleChunks]
      refine List.chain'_cons'.mpr ⟨?_, ih _ hrest⟩
      intro p hp
      have hge := scheduleChunks_head_ge (scheduleBuffer now duration npt).2 rest p hp
      have hstart : (scheduleBuffer now duration npt).2 =
          (scheduleBuffer now duration npt).1 + duration := rfl
      constructor
      · have : (scheduleBuffer now duration npt).1 ≤ (scheduleBuffer now duration npt).2 := by
          rw [hstart]; linarith
        exact le_trans this hge
      · rw [hstart] at hge
        exact hge

lemma drainLoop_fail (decode : QueuedAudioChunk → Option ℚ) (clock : ℕ → ℚ) :
    ∀ (q : List QueuedAudioChunk) (k : ℕ) (npt : ℚ) (ctx : Bool),
    (∃ c ∈ q, decode c = none) →
    drainLoop decode clock q k npt ctx =
      { queue := [], nextPlayTime := 0, hasContext := false, processing := true } := by
  intro q
  induction q with
  | nil =>
      intro k npt ctx h
      simp at h
  | cons c rest ih =>
      intro k npt ctx h
      cases hdec : decode c with
      | none => simp [drainLoop, hdec, stop]
      | some duration =>
          obtain ⟨d, hd, hnone⟩ := h
          rcases List.mem_cons.mp hd with hdc | hdrest
          · rw [hdc] at hnone
            rw [hnone] at hdec
            exact absurd hdec (by simp)
          · simp only [drainLoop, hdec]
            exact ih (k + 1) _ true ⟨d, hdrest, hnone⟩

/-- C1.  Audio Playback Scheduler cursor/ordering invariant: every
chunk of a drain pass is scheduled at
`startAt = max(now + lookahead, nextPlayTime)` with the cursor then
advanced to `startAt + duration`; consequently — for the chunk
durations, which are non-negative — the scheduled start times over any
drain pass are non-decreasing, every chunk's start is at least the
previous chunk's end, and the cursor never decreases. -/
theorem scheduler_cursor_invariant (npt : ℚ) (cs : List (ℚ × ℚ))
    (hdur : ∀ c ∈ cs, 0 ≤ c.2) :
    (∀ now duration n : ℚ, scheduleBuffer now duration n =
      (max (now + lookahead) n, max (now + lookahead) n + duration)) ∧
    List.Chain' (fun a b : ℚ × ℚ => a.1 ≤ b.1 ∧ a.2 ≤ b.1) (scheduleChunks npt cs).1 ∧
    npt ≤ (scheduleChunks npt cs).2 := by
  refine ⟨fun now duration n => rfl, scheduleChunks_chain npt cs hdur,
    scheduleChunks_cursor_mono npt cs hdur⟩

/-- Witness for C1 at a concrete two-chunk drain pass. -/
theorem scheduler_cursor_invariant_witness :
    (∀ now duration n : ℚ, scheduleBuffer now duration n =
      (max (now + lookahead) n, max (now + lookahead) n + duration)) ∧
    List.Chain' (fun a b : ℚ × ℚ => a.1 ≤ b.1 ∧ a.2 ≤ b.1)
      (scheduleChunks 0 [(0, 1), (2, 1/2)]).1 ∧
    (0 : ℚ) ≤ (scheduleChunks 0 [(0, 1), (2, 1/2)]).2 :=
  scheduler_cursor_invariant 0 [(0, 1), (2, 1/2)] (by norm_num)

/-- C7.  A decode failure anywhere in the queue makes the drain pass
abort through `stop()`: the resulting state has an empty queue, a
cursor equal to `0` and no audio context; the chunks queued after the
failing one are discarded, not skipped individually. -/
theorem decode_failure_aborts (decode : QueuedAudioChunk → Option ℚ)
    (clock : ℕ → ℚ) (s : PlayerState)
    (hfail : ∃ c ∈ s.queue, decode c = none) (hidle : s.processing = false) :
    processQueue decode clock s =
      { queue := [], nextPlayTime := 0, hasContext := false, processing := false } := by
  simp only [processQueue, hidle, if_false, Bool.false_eq_true]
  rw [drainLoop_fail decode clock s.queue 0 s.nextPlayTime s.hasContext hfail]

/-- Witness for C7: a three-chunk queue whose second chunk fails to
decode is fully discarded. -/
theorem decode_failure_aborts_witness :
    processQueue (fun c => if c.data = "BAD" then none else some 1) (fun _ => 0)
      { queue := [⟨"A", "audio/pcm"⟩, ⟨"BAD", "audio/pcm"⟩, ⟨"C", "audio/pcm"⟩],
        nextPlayTime := 7, hasContext := true, processing := false } =
      { queue := [], nextPlayTime := 0, hasContext := false, processing := false } :=
  decode_failure_aborts _ _ _
    ⟨⟨"BAD", "audio/pcm"⟩, by simp, by simp⟩ rfl

/-- C9.  Calling `enqueueChunk` with an empty `data` string or an empty
`mimeType` string is a complete no-op: the player state (queue, cursor,
context) is unchanged and no drain pass is triggered. -/
theorem enqueueChunk_empty_noop (data mimeType : String) (s : PlayerState)
    (h : data = "" ∨ mimeType = "") :
    enqueueChunk data mimeType s = (s, false) := by
  simp [enqueueChunk, h]

/-- Witness for C9 at a concrete state. -/
theorem enqueueChunk_empty_noop_witness :
    enqueueChunk "" "audio/pcm"
      { queue := [⟨"A", "audio/pcm"⟩], nextPlayTime := 3, hasContext := true,
        processing := false } =
      (({ queue := [⟨"A", "audio/pcm"⟩], nextPlayTime := 3, hasContext := true,
          processing := false } : PlayerState), false) :=
  enqueueChunk_empty_noop _ _ _ (Or.inl rfl)

end Sightline.AudioPlayback

namespace Sightline.CameraStream

lemma sliceAfterComma_of_mem {dataUrl : List Char} (h : ',' ∈ dataUrl) :
    ∃ payload, sliceAfterComma dataUrl = some payload := by
  induction dataUrl with
  | nil => simp at h
  | cons c rest ih =>
      by_cases hc : c = ','
      · exact ⟨rest, by simp [sliceAfterComma, hc]⟩
      · have : ',' ∈ rest := by
          rcases List.mem_cons.mp h with h1 | h1
          · exact absurd h1.symm hc
          · exact h1
        obtain ⟨p, hp⟩ := ih this
        exact ⟨p, by simp [sliceAfterComma, hc, hp]⟩

lemma meanAbsDiff_self (s : List ℚ) : meanAbsDiff s s = 0 := by
  have hsum : (((s.zip s).map fun p => |p.1 - p.2|).sum) = 0 := by
    induction s with
    | nil => simp
    | cons a t ih => simpa using ih
  simp [meanAbsDiff, hsum]

lemma captureTick_gate_false {thr : ℚ} {lastSig : Option (List ℚ)}
    {pixels : List RGBA} {dataUrl : List Char}
    (h : hasMeaningfulSceneChange lastSig (getSceneSignature pixels) thr = false) :
    captureTick thr lastSig pixels dataUrl = (lastSig, none) := by
  simp [captureTick, h]

lemma captureTick_gate_true {thr : ℚ} {lastSig : Option (List ℚ)}
    {pixels : List RGBA} {dataUrl : List Char} {payload : List Char}
    (h : hasMeaningfulSceneChange lastSig (getSceneSignature pixels) thr = true)
    (hp : sliceAfterComma dataUrl = some payload) :
    captureTick thr lastSig pixels dataUrl =
      (some (getSceneSignature pixels), some payload) := by
  simp [captureTick, h, hp]

/-- C4.  Scene-Change Gate emission condition, on a tick with a valid
frame and a well-formed encoder output (a `data:` URL always contains
a comma): the first frame ever is emitted; a frame identical to the
last emitted one is suppressed (for a positive threshold — the
deployed configuration uses 12); and with a retained signature the
frame is emitted exactly when the mean absolute per-cell luma
difference from the retained signature reaches the threshold. -/
theorem gate_emission_condition (thr : ℚ) (lastSig : Option (List ℚ))
    (pixels : List RGBA) (dataUrl : List Char) (hcomma : ',' ∈ dataUrl) :
    (lastSig = none → (captureTick thr lastSig pixels dataUrl).2 ≠ none) ∧
    (0 < thr → lastSig = some (getSceneSignature pixels) →
      (captureTick thr lastSig pixels dataUrl).2 = none) ∧
    (∀ l, lastSig = some l →
      ((captureTick thr lastSig pixels dataUrl).2 ≠ none ↔
        thr ≤ meanAbsDiff (getSceneSignature pixels) l)) := by
  obtain ⟨payload, hp⟩ := sliceAfterComma_of_mem hcomma
  refine ⟨?_, ?_, ?_⟩
  · intro hnone
    subst hnone
    rw [captureTick_gate_true (by simp [hasMeaningfulSceneChange]) hp]
    simp
  · intro hthr hsame
    subst hsame
    rw [captureTick_gate_false ?_]
    simp [hasMeaningfulSceneChange, meanAbsDiff_self]
    linarith
  · intro l hl
    subst hl
    by_cases hdiff : thr ≤ meanAbsDiff (getSceneSignature pixels) l
    · rw [captureTick_gate_true (by simp [hasMeaningfulSceneChange, hdiff]) hp]
      simpa using hdiff
    · rw [captureTick_gate_false (by simp [hasMeaningfulSceneChange, hdiff])]
      simpa using hdiff

/-- Closed witness for C4: with the deployed threshold 12 and a
retained signature identical to the current frame's, the tick emits
nothing. -/
theorem gate_emission_condition_witness :
    (captureTick 12 (some (getSceneSignature [⟨10, 20, 30, 255⟩]))
      [⟨10, 20, 30, 255⟩] ("data:image/jpeg;base64,QUJD".toList)).2 = none :=
  (gate_emission_condition 12 (some (getSceneSignature [⟨10, 20, 30, 255⟩]))
    [⟨10, 20, 30, 255⟩] ("data:image/jpeg;base64,QUJD".toList)
    (by decide)).2.1 (by norm_num) rfl

lemma runTicks_retention (thr : ℚ) :
    ∀ (ticks : List (List RGBA × List Char)) (lastSig : Option (List ℚ)),
    (∀ t ∈ ticks, ',' ∈ t.2) →
    ((∀ sig, (runTicks thr lastSig ticks).2.getLast? = some sig →
        (runTicks thr lastSig ticks).1 = some sig) ∧
      ((runTicks thr lastSig ticks).2 = [] →
        (runTicks thr lastSig ticks).1 = lastSig)) := by
  intro ticks
  induction ticks with
  | nil =>
      intro lastSig _
      constructor
      · intro sig hsig
        simp [runTicks] at hsig
      · intro _
        simp [runTicks]
  | cons t rest ih =>
      intro lastSig hc
      obtain ⟨pixels, dataUrl⟩ := t
      have hcomma : ',' ∈ dataUrl := hc (pixels, dataUrl) (List.mem_cons_self _ _)
      have hrest : ∀ t ∈ rest, ',' ∈ t.2 := fun t ht => hc t (List.mem_cons_of_mem _ ht)
      obtain ⟨payload, hp⟩ := sliceAfterComma_of_mem hcomma
      by_cases hg : hasMeaningfulSceneChange lastSig (getSceneSignature pixels) thr = true
      · have hct := @captureTick_gate_true thr lastSig pixels dataUrl payload hg hp
        have ihres := ih (some (getSceneSignature pixels)) hrest
        constructor
        · intro sig hsig
          simp only [runTicks, hct] at hsig ⊢
          cases htail : (runTicks thr (some (getSceneSignature pixels)) rest).2 with
          | nil =>
              rw [htail] at hsig
              simp at hsig
              subst hsig
              exact ihres.2 htail
          | cons a l =>
              rw [htail] at hsig
              rw [List.getLast?_cons_cons] at hsig
              have h2 := ihres.1 sig
              rw [htail] at h2
              exact h2 hsig
        · intro hnil
          simp only [runTicks, hct] at hnil
          exact absurd hnil (by simp)
      · have hgf : hasMeaningfulSceneChange lastSig (getSceneSignature pixels) thr = false := by
          simpa using hg
        have hct := @captureTick_gate_false thr lastSig pixels dataUrl hgf
        have ihres := ih lastSig hrest
        constructor
        · intro sig hsig
          simp only [runTicks, hct] at hsig ⊢
          exact ihres.1 sig hsig
        · intro hnil
          simp only [runTicks, hct] at hnil ⊢
          exact ihres.2 hnil

/-- C5.  Scene-Change Gate signature retention, given well-formed
encoder output: on a tick that emits, the retained signature becomes
the emitted frame's signature; on a tick that does not emit, it is
unchanged; hence over any run of valid-frame ticks the retained
signature is the signature of the last frame actually emitted (or the
initial one when nothing was emitted). -/
theorem gate_signature_retention (thr : ℚ) (lastSig : Option (List ℚ))
    (pixels : List RGBA) (dataUrl : List Char) (hcomma : ',' ∈ dataUrl) :
    ((captureTick thr lastSig pixels dataUrl).2 ≠ none →
      (captureTick thr lastSig pixels dataUrl).1 = some (getSceneSignature pixels)) ∧
    ((captureTick thr lastSig pixels dataUrl).2 = none →
      (captureTick thr lastSig pixels dataUrl).1 = lastSig) ∧
    (∀ ticks : List (List RGBA × List Char), (∀ t ∈ ticks, ',' ∈ t.2) →
      (∀ sig, (runTicks thr lastSig ticks).2.getLast? = some sig →
        (runTicks thr lastSig ticks).1 = some sig) ∧
      ((runTicks thr lastSig ticks).2 = [] →
        (runTicks thr lastSig ticks).1 = lastSig)) := by
  obtain ⟨payload, hp⟩ := sliceAfterComma_of_mem hcomma
  refine ⟨?_, ?_, fun ticks hc => runTicks_retention thr ticks lastSig hc⟩
  · intro hem
    by_cases hg : hasMeaningfulSceneChange lastSig (getSceneSignature pixels) thr = true
    · rw [captureTick_gate_true hg hp]
    · rw [captureTick_gate_false (by simpa using hg)] at hem
      simp at hem
  · intro hem
    by_cases hg : hasMeaningfulSceneChange lastSig (getSceneSignature pixels) thr = true
    · rw [captureTick_gate_true hg hp] at hem
      simp at hem
    · rw [captureTick_gate_false (by simpa using hg)]

/-- Closed witness for C5: a first-ever frame is emitted and the
signature it leaves behind is that frame's signature. -/
theorem gate_signature_retention_witness :
    (captureTick 12 none [⟨10, 20, 30, 255⟩]
      ("data:image/jpeg;base64,QUJD".toList)).1 =
      some (getSceneSignature [⟨10, 20, 30, 255⟩]) :=
  (gate_signature_retention 12 none [⟨10, 20, 30, 255⟩]
    ("data:image/jpeg;base64,QUJD".toList) (by decide)).1 (by decide)

end Sightline.CameraStream

namespace Sightline.Transcript

lemma exists_nonws_dropWhile {l : List Char}
    (h : ∃ c ∈ l, isJsWhitespace c = false) :
    ∃ c ∈ l.dropWhile (fun c => isJsWhitespace c), isJsWhitespace c = false := by
  induction l with
  | nil => simp at h
  | cons c rest ih =>
      obtain ⟨d, hd, hdws⟩ := h
      by_cases hc : isJsWhitespace c = true
      · have hdrest : d ∈ rest := by
          rcases List.mem_cons.mp hd with h1 | h1
          · subst h1
            rw [hc] at hdws
            exact absurd hdws (by simp)
          · exact h1
        rw [List.dropWhile_cons_of_pos hc]
        exact ih ⟨d, hdrest, hdws⟩
      · rw [List.dropWhile_cons_of_neg hc]
        exact ⟨d, hd, hdws⟩

lemma exists_nonws_collapse {l : List Char} :
    ∀ (b : Bool), (∃ c ∈ l, isJsWhitespace c = false) →
    ∃ c ∈ collapseWhitespace b l, isJsWhitespace c = false := by
  induction l with
  | nil =>
      intro b h
      simp at h
  | cons c rest ih =>
      intro b h
      obtain ⟨d, hd, hdws⟩ := h
      by_cases hc : isJsWhitespace c = true
      · have hdrest : d ∈ rest := by
          rcases List.mem_cons.mp hd with h1 | h1
          · subst h1
            rw [hc] at hdws
            exact absurd hdws (by simp)
          · exact h1
        obtain ⟨e, he, hews⟩ := ih true ⟨d, hdrest, hdws⟩
        cases b with
        | true =>
            refine ⟨e, ?_, hews⟩
            simpa [collapseWhitespace, hc] using he
        | false =>
            refine ⟨e, ?_, hews⟩
            simp [collapseWhitespace, hc]
            exact Or.inr he
      · by_cases hdc : d = c
        · subst hdc
          refine ⟨d, ?_, hdws⟩
          simp [collapseWhitespace, hdws]
        · have hdrest : d ∈ rest := by
            rcases List.mem_cons.mp hd with h1 | h1
            · exact absurd h1 hdc
            · exact h1
          obtain ⟨e, he, hews⟩ := ih false ⟨d, hdrest, hdws⟩
          refine ⟨e, ?_, hews⟩
          simp [collapseWhitespace, show isJsWhitespace c = false by simpa using hc]
          exact Or.inr he

lemma exists_nonws_trimWs {l : List Char}
    (h : ∃ c ∈ l, isJsWhitespace c = false) :
    ∃ c ∈ trimWs l, isJsWhitespace c = false := by
  obtain ⟨d, hd, hdws⟩ := exists_nonws_dropWhile h
  have hrev : ∃ c ∈ (l.dropWhile fun c => isJsWhitespace c).reverse,
      isJsWhitespace c = false := ⟨d, List.mem_reverse.mpr hd, hdws⟩
  obtain ⟨e, he, hews⟩ := exists_nonws_dropWhile hrev
  exact ⟨e, List.mem_reverse.mpr he, hews⟩

/-- A text containing a non-whitespace character normalizes to a
non-blank text. -/
lemma normalize_ne_nil {l : List Char}
    (h : ∃ c ∈ l, isJsWhitespace c = false) :
    normalizeTranscriptText l ≠ [] := by
  obtain ⟨c, hc, hcws⟩ := exists_nonws_trimWs (exists_nonws_collapse false h)
  exact List.ne_nil_of_mem hc

/-- A non-blank normalization contains a non-whitespace character. -/
lemma exists_nonws_of_normalize_ne_nil {l : List Char}
    (h : normalizeTranscriptText l ≠ []) :
    ∃ c ∈ normalizeTranscriptText l, isJsWhitespace c = false := by
  unfold normalizeTranscriptText trimWs at h ⊢
  set y := (collapseWhitespace false l).dropWhile fun c => isJsWhitespace c with hy
  have hz : y.reverse.dropWhile (fun c => isJsWhitespace c) ≠ [] := by
    intro hnil
    rw [hnil] at h
    simp at h
  have hex : ∃ c ∈ y.reverse, isJsWhitespace c = false := by
    by_contra hall
    push_neg at hall
    apply hz
    rw [List.dropWhile_eq_nil_iff]
    intro x hx
    have := hall x hx
    simpa using this
  obtain ⟨e, he, hews⟩ := exists_nonws_dropWhile hex
  exact ⟨e, List.mem_reverse.mpr he, hews⟩

/-- C2 counterexample.  The claim says an agent entry whose normalized
text matches any of the last four agent entries in the log is dropped.
In the code the guard is `previous.slice(-4).filter(role === 'agent')`:
agent entries among the last four log entries, not the last four agent
entries.  Concretely, with a log `[agent "x", user "a", user "b",
user "c", user "d"]`, the text `"x"` matches one of the last four
agent entries of the log (there is only one agent entry), yet
`appendEntry` appends rather than drops the new agent entry `"x"`. -/
theorem dedup_lastFourAgent_counterexample :
    normalizeTranscriptText ['x'] ∈
      specLastFourAgentTexts
        [⟨Role.agent, ['x']⟩, ⟨Role.user, ['a']⟩, ⟨Role.user, ['b']⟩,
          ⟨Role.user, ['c']⟩, ⟨Role.user, ['d']⟩] ∧
    appendEntry
        [⟨Role.agent, ['x']⟩, ⟨Role.user, ['a']⟩, ⟨Role.user, ['b']⟩,
          ⟨Role.user, ['c']⟩, ⟨Role.user, ['d']⟩] Role.agent ['x'] ≠
      [⟨Role.agent, ['x']⟩, ⟨Role.user, ['a']⟩, ⟨Role.user, ['b']⟩,
        ⟨Role.user, ['c']⟩, ⟨Role.user, ['d']⟩] := by
  decide

/-- C2 amended.  Transcript dedup at commit time: an entry textually
identical (after whitespace normalization) to the immediately
preceding log entry of the same role is dropped, and an agent entry
whose normalized text matches an agent entry among the last four log
entries is dropped. -/
theorem dedup_amended (log : List TranscriptEntry) (role : Role)
    (text : List Char) :
    (∀ last, log.getLast? = some last → last.role = role →
      normalizeTranscriptText last.text = normalizeTranscriptText text →
      appendEntry log role text = log) ∧
    (role = Role.agent →
      (∃ item ∈ lastFour log, item.role = Role.agent ∧
        normalizeTranscriptText item.text = normalizeTranscriptText text) →
      appendEntry log role text = log) := by
  constructor
  · intro last hlast hrole htext
    by_cases hn : normalizeTranscriptText text = []
    · simp [appendEntry, hn]
    · simp [appendEntry, hn, hlast, hrole, htext]
  · intro hagent hseen
    by_cases hn : normalizeTranscriptText text = []
    · simp [appendEntry, hn]
    · obtain ⟨item, hmem, hrole2, htext2⟩ := hseen
      have hany : ((lastFour log).filter fun it =>
            decide (it.role = Role.agent)).any (fun it =>
            decide (normalizeTranscriptText it.text = normalizeTranscriptText text)) =
          true := by
        rw [List.any_eq_true]
        exact ⟨item, List.mem_filter.mpr ⟨hmem, by simp [hrole2]⟩, by simp [htext2]⟩
      simp [appendEntry, hn, hagent, hany]

/-- Closed witness for the amended C2: an agent entry equal to the
immediately preceding agent entry is dropped. -/
theorem dedup_amended_witness :
    appendEntry [⟨Role.agent, ['o', 'k']⟩] Role.agent ['o', 'k'] =
      [⟨Role.agent, ['o', 'k']⟩] :=
  (dedup_amended [⟨Role.agent, ['o', 'k']⟩] Role.agent ['o', 'k']).1
    ⟨Role.agent, ['o', 'k']⟩ rfl rfl (by decide)

/-- C10.  The transcript log never holds a blank entry: `appendEntry`
normalizes the text and silently drops blank entries for every role,
and the entry it appends keeps a non-blank normalized text, so the
non-blank invariant is preserved by every append. -/
theorem log_nonblank_invariant (log : List TranscriptEntry) (role : Role)
    (text : List Char)
    (hinv : ∀ e ∈ log, normalizeTranscriptText e.text ≠ []) :
    ∀ e ∈ appendEntry log role text, normalizeTranscriptText e.text ≠ [] := by
  intro e he
  by_cases hn : normalizeTranscriptText text = []
  · rw [appendEntry, if_pos hn] at he
    exact hinv e he
  · have hne : ∃ c ∈ normalizeTranscriptText text, isJsWhitespace c = false :=
      exists_nonws_of_normalize_ne_nil hn
    have hnn : normalizeTranscriptText (normalizeTranscriptText text) ≠ [] :=
      normalize_ne_nil hne
    rw [appendEntry, if_neg hn] at he
    simp only at he
    split at he
    · exact hinv e he
    · split at he
      · exact hinv e he
      · rcases List.mem_append.mp he with h1 | h1
        · exact hinv e h1
        · have : e = ⟨role, normalizeTranscriptText text⟩ := by simpa using h1
          rw [this]
          exact hnn

/-- Closed witness for C10: appending to the empty log yields only
non-blank entries; checked at the appended entry itself. -/
theorem log_nonblank_invariant_witness :
    normalizeTranscriptText
      (TranscriptEntry.mk Role.user ['h', 'i']).text ≠ [] :=
  log_nonblank_invariant [] Role.user ['h', 'i'] (by simp)
    ⟨Role.user, ['h', 'i']⟩ (by decide)

end Sightline.Transcript

namespace Sightline.Bridge

lemma countLiveErrors_append (a c : List ServerMsg) :
    countLiveErrors (a ++ c) = countLiveErrors a + countLiveErrors c := by
  simp [countLiveErrors, List.filter_append]

lemma disconnect_count (b : Behavior) (st : BridgeState) (r : Option String) :
    countLiveErrors (disconnect b st r).sent = 0 := by
  unfold disconnect
  by_cases hs : st.hasSession = false
  · simp [hs, countLiveErrors]
  · simp only [hs, if_false]
    cases hc : b ExtCall.close <;> simp [countLiveErrors]

lemma connect_count (b : Behavior) (st : BridgeState) (hkey : ¬st.apiKey = "") :
    countLiveErrors (connect b st).sent = 0 := by
  unfold connect
  simp only [hkey, if_false]
  set d := if st.hasSession then disconnect b st (some "Reconnecting session.")
    else ⟨st, [], [], none⟩ with hd
  have hdc : countLiveErrors d.sent = 0 := by
    rw [hd]
    by_cases hs : st.hasSession
    · simpa [hs] using disconnect_count b st (some "Reconnecting session.")
    · simp [hs, countLiveErrors]
  cases hthr : d.thrown with
  | some e => simpa using hdc
  | none => cases hlc : b ExtCall.liveConnect <;> simpa using hdc

lemma dispatch_count_of_thrown (b : Behavior) (st : BridgeState)
    (msg : ClientMsg) (e : String)
    (h : (dispatch b st msg).thrown = some e) :
    countLiveErrors (dispatch b st msg).sent = 0 := by
  cases msg with
  | sessionConnect si =>
      by_cases hkey : st.apiKey = ""
      · simp [dispatch, connect, hkey] at h
      · exact connect_count b st hkey
  | sessionDisconnect => exact disconnect_count b st _
  | ping => simp [dispatch] at h
  | textTurn text tc =>
      by_cases hs : st.hasSession = false
      · simp [dispatch, hs] at h
      · simp [dispatch, hs, performCall, countLiveErrors]
  | audioChunk data mt =>
      by_cases hs : st.hasSession = false
      · simp [dispatch, hs] at h
      · simp [dispatch, hs, performCall, countLiveErrors]
  | audioEnd =>
      by_cases hs : st.hasSession = false
      · simp [dispatch, hs] at h
      · simp [dispatch, hs, performCall, countLiveErrors]
  | videoFrame data mt =>
      by_cases hs : st.hasSession = false
      · simp [dispatch, hs] at h
      · simp [dispatch, hs, performCall, countLiveErrors]
  | activityStart =>
      by_cases hs : st.hasSession = false
      · simp [dispatch, hs] at h
      · simp [dispatch, hs, performCall, countLiveErrors]
  | activityEnd =>
      by_cases hs : st.hasSession = false
      · simp [dispatch, hs] at h
      · simp [dispatch, hs, performCall, countLiveErrors]

/-- C3.  Session Bridge failure containment: for every inbound client
message and every behaviour of the external session (any of its calls
may throw synchronously, and the awaited connect may reject),
`handleClientMessage` absorbs the failure in its catch — the handler
is a total function of the message and behaviour, so the bridge and
the channel survive — and a dispatch that failed with error `e`
results in the messages sent before the failure followed by exactly
one `live.error` overall. -/
theorem failure_containment (b : Behavior) (st : BridgeState) (msg : ClientMsg) :
    ((dispatch b st msg).thrown = none →
      handleClientMessage b st msg =
        ((dispatch b st msg).bridge, (dispatch b st msg).sent,
          (dispatch b st msg).calls)) ∧
    (∀ e, (dispatch b st msg).thrown = some e →
      (handleClientMessage b st msg).2.1 =
        (dispatch b st msg).sent ++ [ServerMsg.liveError e] ∧
      countLiveErrors (handleClientMessage b st msg).2.1 = 1) := by
  constructor
  · intro h
    simp [handleClientMessage, h]
  · intro e h
    have hsent : (handleClientMessage b st msg).2.1 =
        (dispatch b st msg).sent ++ [ServerMsg.liveError e] := by
      simp [handleClientMessage, h]
    refine ⟨hsent, ?_⟩
    rw [hsent, countLiveErrors_append, dispatch_count_of_thrown b st msg e h]
    rfl

/-- Closed witness for C3: with a session open and every external call
throwing, an `audio.chunk` message yields exactly one `live.error`. -/
theorem failure_containment_witness :
    (handleClientMessage (fun _ => some "boom") ⟨"key", true⟩
        (ClientMsg.audioChunk "AAAA" "audio/pcm;rate=16000")).2.1 =
      (dispatch (fun _ => some "boom") ⟨"key", true⟩
        (ClientMsg.audioChunk "AAAA" "audio/pcm;rate=16000")).sent ++
        [ServerMsg.liveError "boom"] ∧
    countLiveErrors (handleClientMessage (fun _ => some "boom") ⟨"key", true⟩
        (ClientMsg.audioChunk "AAAA" "audio/pcm;rate=16000")).2.1 = 1 :=
  (failure_containment (fun _ => some "boom") ⟨"key", true⟩
      (ClientMsg.audioChunk "AAAA" "audio/pcm;rate=16000")).2 "boom" rfl

/-- C6.  Session Bridge no-active-session guard: an inbound message
whose tag is not `session.connect`, `session.disconnect` or `ping`,
arriving with no open session, produces exactly one `live.error`
(the no-active-session message) and no call on the external session,
and leaves the bridge state unchanged. -/
theorem no_active_session_guard (b : Behavior) (st : BridgeState)
    (msg : ClientMsg) (hno : st.hasSession = false)
    (hreq : alwaysAccepted msg = false) :
    handleClientMessage b st msg =
      (st, [ServerMsg.liveError noActiveSessionMsg], []) := by
  cases msg <;> simp_all [handleClientMessage, dispatch, alwaysAccepted]

/-- Closed witness for C6: a `video.frame` with no open session. -/
theorem no_active_session_guard_witness :
    handleClientMessage (fun _ => none) ⟨"key", false⟩
        (ClientMsg.videoFrame "AAAA" "image/jpeg") =
      (⟨"key", false⟩, [ServerMsg.liveError noActiveSessionMsg], []) :=
  no_active_session_guard (fun _ => none) ⟨"key", false⟩
    (ClientMsg.videoFrame "AAAA" "image/jpeg") rfl rfl

end Sightline.Bridge

namespace Sightline.AutoObserve

lemma auto_sent_iff (now : ℤ) (s : AppState) :
    (requestVisionFeedback Mode.auto now s).2 = true ↔
      (s.liveInputEnabled = true ∧ s.cameraEnabled = true ∧
        autoFeedbackCooldownMs ≤ now - s.lastVisionFeedbackRequestAt ∧
        now - s.lastFrameCaptureAt ≤ autoFeedbackFrameFreshnessMs) := by
  unfold requestVisionFeedback
  split_ifs with h1 h2 h3
  · simp only [Bool.false_eq_true, false_iff]
    rintro ⟨hl, hc, -, -⟩
    rcases h1 with h | h
    · rw [hl] at h
      exact absurd h (by simp)
    · rw [hc] at h
      exact absurd h (by simp)
  · simp only [Bool.false_eq_true, false_iff]
    rintro ⟨-, -, hcool, -⟩
    have := h2.2
    omega
  · simp only [Bool.false_eq_true, false_iff]
    rintro ⟨-, -, -, hfresh⟩
    have := h3.2
    omega
  · push_neg at h1
    have hcool : ¬(now - s.lastVisionFeedbackRequestAt < autoFeedbackCooldownMs) :=
      fun hc => h2 ⟨rfl, hc⟩
    have hfresh : ¬(now - s.lastFrameCaptureAt > autoFeedbackFrameFreshnessMs) :=
      fun hf => h3 ⟨rfl, hf⟩
    constructor
    · intro _
      exact ⟨Bool.ne_false_iff.mp h1.1, Bool.ne_false_iff.mp h1.2, by omega, by omega⟩
    · intro _
      rfl

lemma auto_sent_stamp (now : ℤ) (s : AppState)
    (h : (requestVisionFeedback Mode.auto now s).2 = true) :
    (requestVisionFeedback Mode.auto now s).1.lastVisionFeedbackRequestAt = now := by
  unfold requestVisionFeedback at h ⊢
  split_ifs at h ⊢
  rfl

lemma tick_sent_requestAuto (now : ℤ) (s : AppState)
    (h : (step s (Ev.tick now)).2 = true) :
    (requestVisionFeedback Mode.auto now s).2 = true ∧
    (step s (Ev.tick now)).1 = (requestVisionFeedback Mode.auto now s).1 ∧
    s.waitingForInput = true := by
  simp only [step, autoObserveTick] at h ⊢
  split_ifs at h ⊢ with h1 h2
  exact ⟨h, rfl, h1.2.2.2⟩

lemma requestVisionFeedback_lastReq (mode : Mode) (now : ℤ) (s : AppState) :
    (requestVisionFeedback mode now s).1.lastVisionFeedbackRequestAt =
      s.lastVisionFeedbackRequestAt ∨
    (requestVisionFeedback mode now s).1.lastVisionFeedbackRequestAt = now := by
  unfold requestVisionFeedback
  split_ifs <;> first
    | exact Or.inl rfl
    | (cases mode <;> exact Or.inr rfl)

lemma step_lastReq (s : AppState) (e : Ev) :
    (step s e).1.lastVisionFeedbackRequestAt = s.lastVisionFeedbackRequestAt ∨
    (∃ t, evTime e = some t ∧ (step s e).1.lastVisionFeedbackRequestAt = t) := by
  cases e with
  | tick now =>
      simp only [step, autoObserveTick]
      split_ifs <;> first
        | exact Or.inl rfl
        | (rcases requestVisionFeedback_lastReq Mode.auto now s with h | h
           · exact Or.inl h
           · exact Or.inr ⟨now, rfl, h⟩)
  | manualVision now =>
      simp only [step]
      rcases requestVisionFeedback_lastReq Mode.manual now s with h | h
      · exact Or.inl h
      · exact Or.inr ⟨now, rfl, h⟩
  | frameCaptured now => exact Or.inl rfl
  | userActivity now => exact Or.inl rfl
  | waitingSignal w => exact Or.inl rfl
  | cameraToggle flag => exact Or.inl rfl
  | autoToggle flag => exact Or.inl rfl

lemma runTrace_lastReq_ge (t : ℤ) :
    ∀ (evs : List Ev) (s : AppState),
    t ≤ s.lastVisionFeedbackRequestAt →
    (∀ e ∈ evs, ∀ te, evTime e = some te → t ≤ te) →
    t ≤ (runTrace s evs).lastVisionFeedbackRequestAt := by
  intro evs
  induction evs with
  | nil =>
      intro s hs _
      simpa [runTrace] using hs
  | cons e rest ih =>
      intro s hs hmono
      have hnext : t ≤ (step s e).1.lastVisionFeedbackRequestAt := by
        rcases step_lastReq s e with h | ⟨te, hev, heq⟩
        · rw [h]; exact hs
        · rw [heq]
          exact hmono e (List.mem_cons_self _ _) te hev
      simp only [runTrace]
      exact ih (step s e).1 hnext fun e2 he2 => hmono e2 (List.mem_cons_of_mem _ he2)

/-- C8.  Auto-Observe guards: (1) no auto-mode feedback message is
sent by any app event while the most recent waiting-for-input signal
is false, regardless of silence duration; (2) an auto tick sends
nothing while less than the cooldown has passed since the timestamp
stamped by the last vision-feedback send; (3) an auto tick sends
nothing when the last captured frame is older than the freshness
window; (4) along any event trace whose clock readings do not precede
the first send, two auto-mode sends are at least the cooldown apart —
i.e. an auto request sends nothing while the time since the last
auto-feedback actually sent is below the cooldown. -/
theorem auto_observe_guards :
    (∀ (s : AppState) (e : Ev), s.waitingForInput = false → (step s e).2 = false) ∧
    (∀ (s : AppState) (now : ℤ),
      now - s.lastVisionFeedbackRequestAt < autoFeedbackCooldownMs →
      (step s (Ev.tick now)).2 = false) ∧
    (∀ (s : AppState) (now : ℤ),
      autoFeedbackFrameFreshnessMs < now - s.lastFrameCaptureAt →
      (step s (Ev.tick now)).2 = false) ∧
    (∀ (s : AppState) (t₁ t₂ : ℤ) (evs : List Ev),
      (step s (Ev.tick t₁)).2 = true →
      (∀ e ∈ evs, ∀ te, evTime e = some te → t₁ ≤ te) →
      (step (runTrace (step s (Ev.tick t₁)).1 evs) (Ev.tick t₂)).2 = true →
      autoFeedbackCooldownMs ≤ t₂ - t₁) := by
  have hsent : ∀ (s : AppState) (now : ℤ), (step s (Ev.tick now)).2 = true →
      s.waitingForInput = true ∧
      autoFeedbackCooldownMs ≤ now - s.lastVisionFeedbackRequestAt ∧
      now - s.lastFrameCaptureAt ≤ autoFeedbackFrameFreshnessMs ∧
      (step s (Ev.tick now)).1.lastVisionFeedbackRequestAt = now := by
    intro s now h
    obtain ⟨hreq, hstate, hwait⟩ := tick_sent_requestAuto now s h
    obtain ⟨-, -, hcool, hfresh⟩ := (auto_sent_iff now s).mp hreq
    refine ⟨hwait, hcool, hfresh, ?_⟩
    rw [hstate]
    exact auto_sent_stamp now s hreq
  refine ⟨?_, ?_, ?_, ?_⟩
  · intro s e hw
    cases e with
    | tick now =>
        cases hb : (step s (Ev.tick now)).2 with
        | false => rfl
        | true =>
            have := (hsent s now hb).1
            rw [hw] at this
            exact absurd this (by simp)
    | manualVision now => rfl
    | frameCaptured now => rfl
    | userActivity now => rfl
    | waitingSignal w => rfl
    | cameraToggle flag => rfl
    | autoToggle flag => rfl
  · intro s now hlt
    cases hb : (step s (Ev.tick now)).2 with
    | false => rfl
    | true =>
        have := (hsent s now hb).2.1
        omega
  · intro s now hstale
    cases hb : (step s (Ev.tick now)).2 with
    | false => rfl
    | true =>
        have := (hsent s now hb).2.2.1
        omega
  · intro s t₁ t₂ evs h1 hmono h2
    have hstamp := (hsent s t₁ h1).2.2.2
    have hge : t₁ ≤ (runTrace (step s (Ev.tick t₁)).1 evs).lastVisionFeedbackRequestAt :=
      runTrace_lastReq_ge t₁ evs _ (le_of_eq hstamp.symm) hmono
    have hcool := (hsent _ t₂ h2).2.1
    omega

/-- Closed witness for C8: with waiting-for-input false, a tick after
a long silence sends nothing. -/
theorem auto_observe_guards_witness :
    (step ⟨true, true, true, false, 0, 0, 0⟩ (Ev.tick 100000)).2 = false :=
  auto_observe_guards.1 ⟨true, true, true, false, 0, 0, 0⟩ (Ev.tick 100000) rfl

end Sightline.AutoObserve
